import Mathlib

/-!
Verification of the NeuroGraph ingestion-and-fusion pipeline.

This file gives a shallow embedding of the pipeline's core operations:

* the JSON-shaped knowledge-extraction step
  (`IngestionPipeline._extract_knowledge` in `src/ingestion/pipeline.py`),
* the trust-scoring engine
  (`calculate_trust_score` and `Bibliographer.get_trust_score` in
  `src/ingestion/bibliographer.py`, combined by
  `IngestionPipeline.process_document`),
* page image analysis (`IngestionPipeline._analyze_page_images`) and the
  image-saving helper (`extract_images_from_pdf` in
  `src/ingestion/converters.py`),
* the graph upsert protocol (`IngestionPipeline._save_to_graph`) and the
  review commit action (`commit_triples` in `src/ui/pages/1_Validator.py`),
  modelled over an explicit property-graph state.

External services (the LLM, the bibliographic HTTP endpoints, the Neo4j
clock) are modelled as explicit oracle parameters; the graph store's
declarative MERGE/MATCH semantics are modelled by explicit state passing.
-/

namespace NeuroGraph

/-! ## A model of Python JSON values (`json.loads` results). -/

/-- A JSON value as produced by Python's `json.loads`: `None`, booleans,
numbers (modelled as integers), strings, lists and dicts. -/
inductive JVal where
  | null
  | bool (b : Bool)
  | num (n : Int)
  | str (s : String)
  | arr (xs : List JVal)
  | obj (fields : List (String × JVal))

/-- Python truthiness (`bool(v)`): `None`, `False`, `0`, `""`, `[]` and
`{}` (empty dict) are falsy, everything else truthy. Only the top
constructor is inspected, as in Python. -/
def truthy : JVal → Bool
  | .null => false
  | .bool b => b
  | .num n => n != 0
  | .str s => s != ""
  | .arr xs => !xs.isEmpty
  | .obj fs => !fs.isEmpty

/-- Decimal digits of a natural number, most significant first
(the digit list of Python's `str(n)` for `n ≥ 0`). -/
def natDigits (n : Nat) : List Char :=
  if _h : n < 10 then [Char.ofNat (48 + n)]
  else natDigits (n / 10) ++ [Char.ofNat (48 + n % 10)]
termination_by n
decreasing_by
  simp_wf
  exact Nat.div_lt_self (by omega) (by omega)

/-- Python's `str()` of an integer: optional minus sign and decimal digits. -/
def intRepr (n : Int) : String :=
  String.mk ((if n < 0 then [Char.ofNat 45] else []) ++ natDigits n.natAbs)

mutual

/-- Python's `repr()` on a JSON value (strings quoted with  `\x27`,
lists in square brackets, dicts in braces).  Used by `str()` for the
elements of containers. -/
def pyRepr : JVal → String
  | .null => "None"
  | .bool true => "True"
  | .bool false => "False"
  | .num n => intRepr n
  | .str s => "\x27" ++ s ++ "\x27"
  | .arr xs => "[" ++ String.intercalate ", " (pyReprList xs) ++ "]"
  | .obj fs => "\x7b" ++ String.intercalate ", " (pyReprFields fs) ++ "\x7d"

/-- Python repr of every element of a JSON list. -/
def pyReprList : List JVal → List String
  | [] => []
  | x :: xs => pyRepr x :: pyReprList xs

/-- Rendering of `key: value` for every field of a JSON dict. -/
def pyReprFields : List (String × JVal) → List String
  | [] => []
  | (k, v) :: fs => ("\x27" ++ k ++ "\x27: " ++ pyRepr v) :: pyReprFields fs

end

/-- Python's `str()` on a JSON value: a string is returned as itself,
anything else via `repr`. -/
def pyStr : JVal → String
  | .str s => s
  | v => pyRepr v

/-- Python `dict.get(k)` on a JSON object: the value stored at `k`, or
`None` when the key is absent. -/
def jGet (fields : List (String × JVal)) (k : String) : JVal :=
  match fields.find? (fun p => p.1 == k) with
  | some p => p.2
  | none => .null

/-- Python's `a or b`: `a` when truthy, otherwise `b`. -/
def pyOr (a b : JVal) : JVal :=
  if truthy a then a else b

/-- Python's `str.strip()` on the character list: drop leading and
trailing whitespace. -/
def stripChars (l : List Char) : List Char :=
  ((l.dropWhile Char.isWhitespace).reverse.dropWhile Char.isWhitespace).reverse

/-- Python's `content.strip()`. -/
def pyStrip (s : String) : String :=
  String.mk (stripChars s.data)

/-! ## Knowledge extraction (`IngestionPipeline._extract_knowledge`).

The extraction LLM is modelled as an oracle `model : String → Option JVal`
mapping the prompt text to the parsed JSON of its response; `none` covers
both a failed `invoke` call and a `json.JSONDecodeError` on the response,
each of which the code turns into an empty result.  The second component
of the result counts model invocations (the claim about the
short-circuit is a claim about this count). -/

/-- The constant `MAX_CONTENT_CHARS` from `src/ingestion/pipeline.py`. -/
def MAX_CONTENT_CHARS : Nat := 15000

/-- The candidate-triple list drawn from the parsed response `data`:
the `triples` field when `data` is a dict holding a list there, the list
itself when `data` is a bare list, nothing otherwise; in both list cases
non-dict entries are filtered out (`isinstance(t, dict)`). -/
def candidateDicts (data : JVal) : List (List (String × JVal)) :=
  match data with
  | .obj fs =>
    match jGet fs "triples" with
    | .arr xs => xs.filterMap (fun t => match t with | .obj f => some f | _ => none)
    | _ => []
  | .arr xs => xs.filterMap (fun t => match t with | .obj f => some f | _ => none)
  | _ => []

/-- The subject value of a candidate dict under the accepted aliases:
`t.get("subject") or t.get("s") or t.get("subj")`. -/
def subjOf (t : List (String × JVal)) : JVal :=
  pyOr (jGet t "subject") (pyOr (jGet t "s") (jGet t "subj"))

/-- The predicate value of a candidate dict under the accepted aliases. -/
def predOf (t : List (String × JVal)) : JVal :=
  pyOr (jGet t "predicate") (pyOr (jGet t "p") (jGet t "pred"))

/-- The object value of a candidate dict under the accepted aliases. -/
def objOf (t : List (String × JVal)) : JVal :=
  pyOr (jGet t "object") (pyOr (jGet t "o") (jGet t "obj"))

/-- The guard `if subj and pred and obj` of `_extract_knowledge`. -/
def keepTriple (t : List (String × JVal)) : Bool :=
  truthy (subjOf t) && truthy (predOf t) && truthy (objOf t)

/-- The normalized record
`{"subject": str(subj), "predicate": str(pred), "object": str(obj)}`
appended for an accepted candidate, as a string-valued dict. -/
def mkTripleRec (t : List (String × JVal)) : List (String × String) :=
  [("subject", pyStr (subjOf t)), ("predicate", pyStr (predOf t)),
   ("object", pyStr (objOf t))]

/-- The normalization loop of `_extract_knowledge`: accepted candidates
are appended to `normalized` in order, the rest are dropped. -/
def normalizeTriples (ts : List (List (String × JVal))) :
    List (List (String × String)) :=
  ts.foldl (fun acc t => if keepTriple t then acc ++ [mkTripleRec t] else acc) []

/-- Model of `IngestionPipeline._extract_knowledge`: short-circuit on stripped
content shorter than 50 characters, otherwise one model invocation on the
content truncated to `MAX_CONTENT_CHARS`, whose parsed response is
normalized; a failed call or unparsable response yields `[]`.  Returns
the normalized triples and the number of model invocations. -/
def extract_knowledge (model : String → Option JVal) (content : String) :
    List (List (String × String)) × Nat :=
  if (pyStrip content).length < 50 then ([], 0)
  else
    match model (content.take MAX_CONTENT_CHARS) with
    | none => ([], 1)
    | some data => (normalizeTriples (candidateDicts data), 1)

/-! ## Trust scoring (`src/ingestion/bibliographer.py`).

Network results are modelled as explicit inputs: `fetch_citation_count`'s
result is an `Option Int` (`none` = requests missing, lookup failed, or
no `citationCount` field) and the OpenAlex work record is an
`Option OpenAlexWork` (`none` = offline / no result).  The classifier LLM
result (`_classify_document_type`) is the `(doc_type, confidence,
rationale)` triple it returns. -/

/-- The fields of an OpenAlex work record that `get_trust_score` reads,
with the Python defaults (`cited_by_count` defaulting to `0`,
`is_retracted` to `False`) already applied. -/
structure OpenAlexWork where
  cited_by_count : Int
  is_retracted : Bool

/-- The `DOC_TYPE_TRUST` table of `bibliographer.py`. -/
def DOC_TYPE_TRUST : List (String × ℚ) :=
  [("LAB_NOTE", 1), ("TEXTBOOK", 9/10), ("LECTURE_SLIDES", 7/10),
   ("IMAGE_CAPTION", 6/10), ("EXPERIMENTAL_STUDY", 9/10),
   ("REVIEW_ARTICLE", 85/100), ("POPULAR_SCIENCE", 6/10)]

/-- Model of `_trust_from_doc_type`: table lookup on the upper-cased label with
default `0.5`. -/
def trust_from_doc_type (docType : String) : ℚ :=
  match DOC_TYPE_TRUST.find? (fun p => p.1 == docType.toUpper) with
  | some p => p.2
  | none => 1/2

/-- The provenance record returned by `calculate_trust_score`: either the
citations branch (keys `source="citations"`, `doi`, `citations`) or the
structural branch (keys `source="structure"`, `doc_type`, `confidence`,
`rationale`). -/
inductive TrustMeta where
  | citations (doi : String) (count : Int)
  | structural (docType : String) (confidence : ℚ) (rationale : String)

/-- Python `trust_meta.get("doc_type")`: present only in the structural branch. -/
def TrustMeta.docType : TrustMeta → Option String
  | .citations _ _ => none
  | .structural dt _ _ => some dt

/-- Model of `calculate_trust_score(text, doi, classifier)` of `bibliographer.py`.
`fetched` is the result of `fetch_citation_count(doi)` (consulted only
when a DOI is present); `classified` is the classifier triple
`(doc_type, confidence, rationale)` from `_classify_document_type`. -/
def calculate_trust_score (doi : Option String) (fetched : Option Int)
    (classified : String × ℚ × String) : ℚ × TrustMeta :=
  let structural : ℚ × TrustMeta :=
    let docType := classified.1
    let trust := if docType == "" then 1/2 else trust_from_doc_type docType
    (trust, .structural docType classified.2.1 classified.2.2)
  match doi with
  | some d =>
    match fetched with
    | some citations =>
      if citations > 50 then (95/100, .citations d citations)
      else if citations > 0 then (85/100, .citations d citations)
      else (80/100, .citations d citations)
    | none => structural
  | none => structural

/-- The lab-note aliases of `get_trust_score`'s priority override. -/
def labNoteAliases : List String := ["note", "lab_note", "labnote"]

/-- Model of `Bibliographer.get_trust_score(title, doc_type_detected)`: lab-note
override, then OpenAlex retraction/citation buckets, then the heuristic
fallback on the detected document type.  `alex` is the result of
`_query_openalex(title)`. -/
def get_trust_score (doc_type_detected : String)
    (alex : Option OpenAlexWork) : ℚ :=
  if labNoteAliases.contains doc_type_detected.toLower then 1
  else
    match alex with
    | some d =>
      if d.is_retracted then 1/10
      else if d.cited_by_count > 100 then 95/100
      else if d.cited_by_count > 10 then 85/100
      else 75/100
    | none =>
      if ["TEXTBOOK"].contains doc_type_detected.toUpper then 9/10
      else if ["PAPER", "EXPERIMENTAL_STUDY",
               "REVIEW_ARTICLE"].contains doc_type_detected.toUpper then 7/10
      else 1/2

/-- The document-type string the pipeline passes to `get_trust_score`:
`trust_meta.get("doc_type") or "Paper"` (Python `or`, so an empty or
absent label falls back to `"Paper"`). -/
def docTypeDetected (meta : TrustMeta) : String :=
  match meta.docType with
  | some s => if s == "" then "Paper" else s
  | none => "Paper"

/-- The trust computation of `IngestionPipeline.process_document`:
the text-path score from `calculate_trust_score`, then the title-path
score from `bibliographer.get_trust_score` on the detected document
type, combined with `max`. -/
def pipelineTrust (doi : Option String) (fetched : Option Int)
    (classified : String × ℚ × String) (alex : Option OpenAlexWork) : ℚ :=
  let (trust, meta) := calculate_trust_score doi fetched classified
  max trust (get_trust_score (docTypeDetected meta) alex)

/-! ## Page image analysis and image extraction. -/

/-- An embedded raster image: pixel dimensions as reported by
`extract_image` (`width`/`height`, defaulting to 0 when absent) and its
byte content, kept opaque. -/
structure PageImage where
  width : Nat
  height : Nat
  bytes : String
deriving DecidableEq

/-- One iteration of the image loop of
`IngestionPipeline._analyze_page_images`: the image is sent to the vision
model (`vision img = none` models a failed call, which is logged and
skipped); a success appends the line `[Figura i+1]: description`.  Either
way the invocation counter advances. -/
def analyzeStep (vision : PageImage → Option String)
    (acc : List String × Nat) (p : Nat × PageImage) : List String × Nat :=
  match vision p.2 with
  | some desc =>
    (acc.1 ++ ["[Figura " ++ toString (p.1 + 1) ++ "]: " ++ desc], acc.2 + 1)
  | none => (acc.1, acc.2 + 1)

/-- Model of `IngestionPipeline._analyze_page_images`: every image of the page
goes through `analyzeStep`; the collected descriptions are joined with
newlines.  Returns the joined description block and the number of
vision-model invocations. -/
def analyze_page_images (vision : PageImage → Option String)
    (imgs : List PageImage) : String × Nat :=
  let r := imgs.enum.foldl (analyzeStep vision) ([], 0)
  (String.intercalate "\n" r.1, r.2)

/-- Model of `extract_images_from_pdf` of `src/ingestion/converters.py`, restricted
to its selection logic: images with `width < min_w or height < min_h` are
skipped, the rest are saved in page order.  `pages` is the per-page image
list of the document. -/
def extract_images_from_pdf (min_w min_h : Nat)
    (pages : List (List PageImage)) : List PageImage :=
  (pages.map (fun page =>
    page.filter (fun d => !(d.width < min_w || d.height < min_h)))).flatten

/-! ## The property-graph state and the merge/commit queries.

Documents, Concept nodes and RELATION edges are modelled explicitly;
nodes and relationships carry the opaque numeric identities Neo4j gives
them (`id(r)`), freshly allocated from counters.  `now` models the
`datetime()` clock value used for `validated_at`. -/

/-- A RELATION relationship: endpoints by node id, the `type` property,
and the `weight`/`sources`/`status`/`validated_at` properties.  A property
is `none` while it was never SET (edges are created without `status`,
which readers default to `PROVISIONAL` via `coalesce`). -/
structure Rel where
  src : Nat
  dst : Nat
  typ : String
  weight : ℚ
  sources : List String
  status : Option String
  validated_at : Option Nat
deriving DecidableEq

/-- The graph state: Document nodes (name, trust_score), Concept nodes
(id, name), RELATION relationships (id, record), the fresh-id counters
and the clock. -/
structure NGraph where
  docs : List (String × ℚ)
  nodes : List (Nat × String)
  rels : List (Nat × Rel)
  nextNodeId : Nat
  nextRelId : Nat
  now : Nat
deriving DecidableEq

/-- The `MATCH (doc:Document ...)` lookup: the trust score of the
document with the given name, if present. -/
def findDoc (g : NGraph) (name : String) : Option ℚ :=
  match g.docs.find? (fun p => p.1 == name) with
  | some p => some p.2
  | none => none

/-- The id of the first node with the given name in a node list. -/
def findNodeL (l : List (Nat × String)) (name : String) : Option Nat :=
  match l.find? (fun p => p.2 == name) with
  | some p => some p.1
  | none => none

/-- The id of the first Concept node with the given name. -/
def findNode (g : NGraph) (name : String) : Option Nat :=
  findNodeL g.nodes name

/-- The `MERGE (c:Concept ...)` step: match the node by name or create it
with a fresh id.  Returns the new state and the bound node id. -/
def mergeConcept (g : NGraph) (name : String) : NGraph × Nat :=
  match findNode g name with
  | some i => (g, i)
  | none =>
    ({ g with nodes := g.nodes ++ [(g.nextNodeId, name)],
              nextNodeId := g.nextNodeId + 1 }, g.nextNodeId)

/-- The id of the first relationship with the given endpoints and `type`
in a relationship list. -/
def findRelL (l : List (Nat × Rel)) (s o : Nat) (ty : String) : Option Nat :=
  match l.find? (fun p => p.2.src == s && p.2.dst == o && p.2.typ == ty) with
  | some p => some p.1
  | none => none

/-- The id of the first RELATION with the given endpoints and `type`
(the match of `MERGE (s)-[r:RELATION {type: $pred}]->(o)`). -/
def findRel (g : NGraph) (s o : Nat) (ty : String) : Option Nat :=
  findRelL g.rels s o ty

/-- Apply `f` to the relationship with id `i`. -/
def updateRel (g : NGraph) (i : Nat) (f : Rel → Rel) : NGraph :=
  { g with rels := g.rels.map (fun p => if p.1 == i then (p.1, f p.2) else p) }

/-- The per-triple Cypher query of `IngestionPipeline._save_to_graph`:
`MATCH` the source Document (if absent, the query touches nothing),
`MERGE` both Concept endpoints, `MERGE` the edge keyed by
(subject id, type, object id); `ON CREATE` sets
`weight = doc.trust_score, sources = [doc.name]`, `ON MATCH` sets
`weight = (weight + doc.trust_score)/2` and appends `doc.name` to
`sources`.  `pred` arrives already normalized by the caller. -/
def saveTriple (g : NGraph) (source subj pred obj : String) : NGraph :=
  match findDoc g source with
  | none => g
  | some trust =>
    let m1 := mergeConcept g subj
    let m2 := mergeConcept m1.1 obj
    let sid := m1.2
    let oid := m2.2
    let g2 := m2.1
    match findRel g2 sid oid pred with
    | none =>
      { g2 with
        rels := g2.rels ++ [(g2.nextRelId,
          { src := sid, dst := oid, typ := pred, weight := trust,
            sources := [source], status := none, validated_at := none })],
        nextRelId := g2.nextRelId + 1 }
    | some rid =>
      updateRel g2 rid (fun r =>
        { r with weight := (r.weight + trust) / 2,
                 sources := r.sources ++ [source] })

/-- Predicate normalization applied when building the query parameters:
`triple["predicate"].upper().replace(" ", "_")`. -/
def normPred (p : String) : String :=
  p.toUpper.replace " " "_"

/-- Python `k in dict` on a string-valued dict. -/
def hasKey (rec : List (String × String)) (k : String) : Bool :=
  rec.any (fun p => p.1 == k)

/-- Python `dict[k]` on a string-valued dict (first binding, `""` when
absent — the code only reads keys it has checked for). -/
def dictGet (rec : List (String × String)) (k : String) : String :=
  match rec.find? (fun p => p.1 == k) with
  | some p => p.2
  | none => ""

/-- Model of `IngestionPipeline._save_to_graph`: for each triple dict, skip it when
one of the three keys is missing, otherwise run the merge query with the
normalized predicate. -/
def save_to_graph (g : NGraph) (triples : List (List (String × String)))
    (source_file : String) : NGraph :=
  triples.foldl
    (fun g t =>
      if hasKey t "subject" && hasKey t "predicate" && hasKey t "object" then
        saveTriple g source_file (dictGet t "subject")
          (normPred (dictGet t "predicate")) (dictGet t "object")
      else g)
    g

/-- A row of the Validator commit: the edited subject/predicate/object
text and the targeted relationship identity. -/
structure CommitRow where
  rel_id : Nat
  subject : String
  predicate : String
  object : String

/-- One row of the `commit_triples` Cypher: `MATCH (s)-[r]->(o) WHERE
id(r) = row.rel_id`, then `SET s.name = row.subject, r.type =
toUpper(row.predicate), o.name = row.object, r.status = 'VALIDATED',
r.validated_at = datetime()`.  An unmatched id touches nothing.  Returns
the new state and the number of rows matched (0 or 1). -/
def commitRow (g : NGraph) (row : CommitRow) : NGraph × Nat :=
  match g.rels.find? (fun p => p.1 == row.rel_id) with
  | none => (g, 0)
  | some (_, r) =>
    let renameS := fun (p : Nat × String) =>
      if p.1 == r.src then (p.1, row.subject) else p
    let renameO := fun (p : Nat × String) =>
      if p.1 == r.dst then (p.1, row.object) else p
    let g1 := { g with nodes := g.nodes.map renameS }
    let g2 := { g1 with nodes := g1.nodes.map renameO }
    (updateRel g2 row.rel_id (fun r =>
      { r with typ := row.predicate.toUpper,
               status := some "VALIDATED",
               validated_at := some g.now }), 1)

/-- Model of `commit_triples(rows)` of `src/ui/pages/1_Validator.py`: process every
row and return the updated state with `count(*)`, the number of matched
rows (the function returns 0 rows → 0 without touching the store). -/
def commit_triples (g : NGraph) (rows : List CommitRow) : NGraph × Nat :=
  rows.foldl (fun (acc : NGraph × Nat) row =>
    let (g1, n) := commitRow acc.1 row
    (g1, acc.2 + n)) (g, 0)

/-- The status a reader observes for relationship id `i` in a
relationship list: `coalesce(r.status, 'PROVISIONAL')` of the Validator
queries, `none` when the id does not exist. -/
def relStatusL (l : List (Nat × Rel)) (i : Nat) : Option String :=
  match l.find? (fun p => p.1 == i) with
  | some p => some (p.2.status.getD "PROVISIONAL")
  | none => none

/-- The status a reader observes for relationship id `i` of the state. -/
def relStatus (g : NGraph) (i : Nat) : Option String :=
  relStatusL g.rels i

/-- The `validated_at` property of relationship id `i`. -/
def relValidatedAt (g : NGraph) (i : Nat) : Option Nat :=
  match g.rels.find? (fun p => p.1 == i) with
  | some p => p.2.validated_at
  | none => none

/-- The edge record observed for the (subject name, type, object name)
triple key: resolve both Concept names, then the RELATION between them
with that type. -/
def edgeView (g : NGraph) (subj ty obj : String) : Option Rel :=
  match findNode g subj with
  | none => none
  | some sid =>
    match findNode g obj with
    | none => none
    | some oid =>
      match findRel g sid oid ty with
      | none => none
      | some rid =>
        match g.rels.find? (fun p => p.1 == rid) with
        | some p => some p.2
        | none => none

/-- Well-formedness of a graph state: node and relationship ids are below
their fresh-id counters and every relationship endpoint is an existing
node id.  Every state reachable from the empty graph satisfies this. -/
def WF (g : NGraph) : Prop :=
  (∀ p ∈ g.nodes, p.1 < g.nextNodeId) ∧
  (∀ p ∈ g.rels, p.1 < g.nextRelId ∧
    (∃ q ∈ g.nodes, q.1 = p.2.src) ∧ (∃ q ∈ g.nodes, q.1 = p.2.dst))

/-! ## Helper lemmas -/

/-- Dropping a whitespace prefix never lengthens a list. -/
lemma length_dropWhile_le (p : Char → Bool) (l : List Char) :
    (l.dropWhile p).length ≤ l.length := by
  induction l with
  | nil => simp
  | cons a l ih =>
    by_cases h : p a
    · simp only [List.dropWhile, h]
      exact Nat.le_succ_of_le ih
    · simp [List.dropWhile, h]

/-- Python's `strip` never lengthens a string. -/
lemma pyStrip_length_le (s : String) : (pyStrip s).length ≤ s.length := by
  show (stripChars s.data).length ≤ s.data.length
  unfold stripChars
  calc ((s.data.dropWhile Char.isWhitespace).reverse.dropWhile
          Char.isWhitespace).reverse.length
      = ((s.data.dropWhile Char.isWhitespace).reverse.dropWhile
          Char.isWhitespace).length := List.length_reverse ..
    _ ≤ (s.data.dropWhile Char.isWhitespace).reverse.length :=
        length_dropWhile_le ..
    _ = (s.data.dropWhile Char.isWhitespace).length := List.length_reverse ..
    _ ≤ s.data.length := length_dropWhile_le ..

/-! ## C8 — extraction short-circuit -/

/-- C8: for every content string of length below 50 characters,
`_extract_knowledge` returns the empty triple list and the extraction
model is never invoked (invocation count 0). -/
theorem extract_short_circuit (model : String → Option JVal)
    (content : String) (h : content.length < 50) :
    extract_knowledge model content = ([], 0) := by
  unfold extract_knowledge
  rw [if_pos (lt_of_le_of_lt (pyStrip_length_le content) h)]

theorem extract_short_circuit_witness :
    ("too short".length < 50) ∧
      extract_knowledge (fun _ => some (.arr [])) "too short" = ([], 0) :=
  ⟨by decide, extract_short_circuit (fun _ => some (.arr [])) "too short"
    (by decide)⟩

/-! ## C9 — merge with an unknown source document is a no-op -/

/-- The per-triple merge query touches nothing when the source Document
does not match. -/
lemma saveTriple_no_doc (g : NGraph) (source subj pred obj : String)
    (h : findDoc g source = none) :
    saveTriple g source subj pred obj = g := by
  unfold saveTriple
  rw [h]

/-- C9: when no Document node with the source name exists, the whole
`_save_to_graph` call leaves the graph state unchanged (no Concept nodes,
no RELATION edges are created) and, being a total function here, raises
nothing to the caller. -/
theorem save_missing_document_noop (g : NGraph)
    (triples : List (List (String × String))) (source_file : String)
    (h : findDoc g source_file = none) :
    save_to_graph g triples source_file = g := by
  unfold save_to_graph
  induction triples with
  | nil => rfl
  | cons t ts ih =>
    simp only [List.foldl_cons]
    split
    · rw [saveTriple_no_doc g source_file _ _ _ h]
      exact ih
    · exact ih

theorem save_missing_document_noop_witness :
    (findDoc { docs := [("other", 1)], nodes := [], rels := [],
               nextNodeId := 0, nextRelId := 0, now := 0 } "missing" = none) ∧
      save_to_graph
        { docs := [("other", 1)], nodes := [], rels := [],
          nextNodeId := 0, nextRelId := 0, now := 0 }
        [[("subject", "A"), ("predicate", "is a"), ("object", "B")]]
        "missing" =
      { docs := [("other", 1)], nodes := [], rels := [],
        nextNodeId := 0, nextRelId := 0, now := 0 } :=
  ⟨rfl, save_missing_document_noop _ _ _ rfl⟩

/-! ## C3 — citation buckets of the text path -/

/-- C3 counterexample: with a DOI present and a successful lookup,
60 citations score 0.95 (not the claimed 0.85 bucket for `≤ 100`), and a
citation count of 0 scores 0.80 — a citation-based score — instead of
falling through to the structural-classification fallback (which would
give 0.90 here, the classifier having said TEXTBOOK). -/
theorem citation_buckets_counterexample :
    (calculate_trust_score (some "10.1/x") (some 60) ("OTHER", 0, "")).1
        = 95/100 ∧
      ((95:ℚ)/100 ≠ 85/100) ∧
      (calculate_trust_score (some "10.1/x") (some 0) ("TEXTBOOK", 1, "")).1
        = 80/100 ∧
      trust_from_doc_type "TEXTBOOK" = 9/10 ∧
      ((80:ℚ)/100 ≠ 9/10) := by
  refine ⟨rfl, by norm_num, rfl, by with_unfolding_all rfl, by norm_num⟩

/-- C3 amended: in the text path, when a DOI is present and the citation
lookup succeeds the buckets are `> 50 → 0.95`, `> 0 → 0.85`, and
everything else (a count of 0) → `0.80`, still a citation-based score;
only an unavailable lookup falls through to the structural
classification, behaving exactly as the no-DOI case. -/
theorem citation_buckets (d : String) (c : Int)
    (classified : String × ℚ × String) :
    ((calculate_trust_score (some d) (some c) classified).1 =
        if c > 50 then 95/100 else if c > 0 then 85/100 else 80/100) ∧
      calculate_trust_score (some d) none classified =
        calculate_trust_score none none classified := by
  constructor
  · have h : calculate_trust_score (some d) (some c) classified =
        if c > 50 then (95/100, .citations d c)
        else if c > 0 then (85/100, .citations d c)
        else (80/100, .citations d c) := rfl
    rw [h]
    split_ifs <;> rfl
  · rfl

/-! ## C2 — retraction and the final pipeline trust -/

/-- The pipeline's trust is the max of the text-path score and the
title-path score on the detected document type (definitional, by
structure eta). -/
lemma pipelineTrust_def (doi : Option String) (fetched : Option Int)
    (classified : String × ℚ × String) (alex : Option OpenAlexWork) :
    pipelineTrust doi fetched classified alex =
      max (calculate_trust_score doi fetched classified).1
        (get_trust_score
          (docTypeDetected (calculate_trust_score doi fetched classified).2)
          alex) := rfl

/-- Every entry of the document-type trust table is at least `1/2`. -/
lemma docTypeTrust_ge (p : String × ℚ) (hp : p ∈ DOC_TYPE_TRUST) :
    1/2 ≤ p.2 := by
  fin_cases hp <;> norm_num

/-- The structural fallback never scores below the neutral prior `1/2`. -/
lemma trust_from_doc_type_ge (dt : String) : 1/2 ≤ trust_from_doc_type dt := by
  unfold trust_from_doc_type
  split
  · next p hp => exact docTypeTrust_ge p (List.mem_of_find?_eq_some hp)
  · norm_num

/-- The text-path score of `calculate_trust_score` is always at least
`1/2`. -/
lemma calculate_trust_score_ge (doi : Option String) (fetched : Option Int)
    (classified : String × ℚ × String) :
    1/2 ≤ (calculate_trust_score doi fetched classified).1 := by
  have hstruct : 1/2 ≤ (calculate_trust_score none none classified).1 := by
    have h : calculate_trust_score none none classified =
        (if classified.1 == "" then 1/2 else trust_from_doc_type classified.1,
          .structural classified.1 classified.2.1 classified.2.2) := rfl
    rw [h]
    dsimp only
    split
    · norm_num
    · exact trust_from_doc_type_ge classified.1
  match doi, fetched with
  | none, f => exact hstruct
  | some d, none => exact hstruct
  | some d, some c =>
    have h : calculate_trust_score (some d) (some c) classified =
        if c > 50 then (95/100, .citations d c)
        else if c > 0 then (85/100, .citations d c)
        else (80/100, .citations d c) := rfl
    rw [h]
    split_ifs <;> norm_num

/-- C2 counterexample: OpenAlex reports the document retracted (with 500
citations), the title path duly scores `0.1`, but the trust score used by
the pipeline is `0.5` (the text-path structural score wins the `max`),
not `0.1`. -/
theorem retraction_pipeline_counterexample :
    get_trust_score
        (docTypeDetected (calculate_trust_score none none ("OTHER", 0, "")).2)
        (some ⟨500, true⟩) = 1/10 ∧
      pipelineTrust none none ("OTHER", 0, "") (some ⟨500, true⟩) = 1/2 ∧
      ((1:ℚ)/2 ≠ 1/10) := by
  have hg : get_trust_score "OTHER" (some ⟨500, true⟩) = 1/10 := by
    with_unfolding_all rfl
  have hd : docTypeDetected
      (calculate_trust_score none none ("OTHER", 0, "")).2 = "OTHER" := by
    with_unfolding_all rfl
  have hc : (calculate_trust_score none none ("OTHER", 0, "")).1 = 1/2 := by
    with_unfolding_all rfl
  refine ⟨by rw [hd, hg], ?_, by norm_num⟩
  rw [pipelineTrust_def, hd, hg, hc]
  exact max_eq_left (by norm_num)

/-- C2 amended: when the detected document type is not a lab-note alias
and the OpenAlex lookup reports the work retracted, the *title-path*
score is exactly `0.1` regardless of citation count; but the pipeline
uses the maximum of the text path and the title path, and the text path
never scores below `0.5`, so the trust used by the pipeline is always at
least `0.5` and hence never the `0.1` retraction floor. -/
theorem retraction_title_path (dt : String) (w : OpenAlexWork)
    (hdt : labNoteAliases.contains dt.toLower = false)
    (hr : w.is_retracted = true) :
    get_trust_score dt (some w) = 1/10 ∧
      ∀ (doi : Option String) (fetched : Option Int)
        (classified : String × ℚ × String) (alex : Option OpenAlexWork),
        1/2 ≤ pipelineTrust doi fetched classified alex := by
  constructor
  · have h : get_trust_score dt (some w) =
        if labNoteAliases.contains dt.toLower then (1:ℚ)
        else if w.is_retracted then 1/10
        else if w.cited_by_count > 100 then 95/100
        else if w.cited_by_count > 10 then 85/100
        else 75/100 := rfl
    rw [h, hdt, hr]
    simp
  · intro doi fetched classified alex
    rw [pipelineTrust_def]
    exact le_trans (calculate_trust_score_ge doi fetched classified)
      (le_max_left _ _)

theorem retraction_title_path_witness :
    (labNoteAliases.contains ("Paper".toLower) = false) ∧
      get_trust_score "Paper" (some ⟨500, true⟩) = 1/10 :=
  ⟨by with_unfolding_all rfl,
    (retraction_title_path "Paper" ⟨500, true⟩ (by with_unfolding_all rfl)
      rfl).1⟩

/-! ## C4 — the lab-note identity override -/

/-- C4 counterexample: the classifier reports `LAB_NOTE` (an
experimental/lab-note origin, which the trust table maps to `1.0`), yet
with a DOI whose citation lookup succeeds with 200 citations the trust
engine returns `0.95`, not `1.0` — the citation signal preempts the
identity override on the text path. -/
theorem lab_note_override_counterexample :
    trust_from_doc_type "LAB_NOTE" = 1 ∧
      pipelineTrust (some "10.1/x") (some 200) ("LAB_NOTE", 99/100, "lab")
          none = 95/100 ∧
      ((95:ℚ)/100 ≠ 1) := by
  have hc : (calculate_trust_score (some "10.1/x") (some 200)
      ("LAB_NOTE", 99/100, "lab")).1 = 95/100 := by with_unfolding_all rfl
  have hd : docTypeDetected (calculate_trust_score (some "10.1/x") (some 200)
      ("LAB_NOTE", 99/100, "lab")).2 = "Paper" := by with_unfolding_all rfl
  have hg : get_trust_score "Paper" none = 7/10 := by with_unfolding_all rfl
  refine ⟨by with_unfolding_all rfl, ?_, by norm_num⟩
  rw [pipelineTrust_def, hc, hd, hg]
  exact max_eq_left (by norm_num)

/-- C4 amended: the immediate identity override lives in the title path —
`get_trust_score` returns exactly `1.0` for a lab-note document type
before consulting any other signal, whatever the bibliometric data says.
On the text path, a `LAB_NOTE` classification yields `1.0` only when the
structural branch is reached (no DOI, or citation lookup unavailable); a
successful citation lookup preempts it. -/
theorem lab_note_override (dt : String) (alex : Option OpenAlexWork)
    (h : labNoteAliases.contains dt.toLower = true) :
    get_trust_score dt alex = 1 ∧
      ∀ (doi : Option String) (conf : ℚ) (rationale : String),
        (calculate_trust_score doi none ("LAB_NOTE", conf, rationale)).1
          = 1 := by
  constructor
  · have hdef : get_trust_score dt alex =
        if labNoteAliases.contains dt.toLower then (1:ℚ)
        else match alex with
          | some d =>
            if d.is_retracted then 1/10
            else if d.cited_by_count > 100 then 95/100
            else if d.cited_by_count > 10 then 85/100
            else 75/100
          | none =>
            if ["TEXTBOOK"].contains dt.toUpper then 9/10
            else if ["PAPER", "EXPERIMENTAL_STUDY",
                     "REVIEW_ARTICLE"].contains dt.toUpper then 7/10
            else 1/2 := rfl
    rw [hdef, h]
    simp
  · intro doi conf rationale
    have hs : (calculate_trust_score doi none
        ("LAB_NOTE", conf, rationale)).1 = trust_from_doc_type "LAB_NOTE" := by
      cases doi <;> rfl
    rw [hs]
    with_unfolding_all rfl

theorem lab_note_override_witness :
    (labNoteAliases.contains ("LAB_NOTE".toLower) = true) ∧
      get_trust_score "LAB_NOTE" (some ⟨500, true⟩) = 1 :=
  ⟨by with_unfolding_all rfl,
    (lab_note_override "LAB_NOTE" (some ⟨500, true⟩)
      (by with_unfolding_all rfl)).1⟩

/-! ## C5 — the minimum-size threshold for vision analysis -/

/-- Each loop iteration of `_analyze_page_images` performs exactly one
vision-model invocation, whatever the image is. -/
lemma analyze_count (vision : PageImage → Option String)
    (l : List (Nat × PageImage)) (acc : List String × Nat) :
    (l.foldl (analyzeStep vision) acc).2 = acc.2 + l.length := by
  induction l generalizing acc with
  | nil => simp
  | cons p l ih =>
    rw [List.foldl_cons, ih]
    unfold analyzeStep
    cases vision p.2 <;> simp <;> omega

/-- C5 counterexample: a 100×100 image — far below the 500×500
threshold — is still sent to the vision model (one invocation) by
`_analyze_page_images` and contributes a description to the page
content, instead of being silently skipped. -/
theorem image_threshold_counterexample :
    analyze_page_images (fun _ => some "a bar chart") [⟨100, 100, "img"⟩]
        = ("[Figura 1]: a bar chart", 1) ∧
      ("[Figura 1]: a bar chart" ≠ "") := by
  exact ⟨rfl, by decide⟩

/-- C5 amended: page content assembly sends *every* embedded image to
the vision model, regardless of size — `_analyze_page_images` has no
size threshold at all.  The 500×500 minimum-size threshold exists only
in the separate `extract_images_from_pdf` helper (unused by the
pipeline), which skips images below the threshold when saving them to
disk and keeps exactly the images meeting it. -/
theorem image_threshold :
    (∀ (vision : PageImage → Option String) (imgs : List PageImage),
        (analyze_page_images vision imgs).2 = imgs.length) ∧
      (∀ (mw mh : Nat) (pages : List (List PageImage)) (d : PageImage),
        d ∈ extract_images_from_pdf mw mh pages →
          mw ≤ d.width ∧ mh ≤ d.height) ∧
      (∀ (mw mh : Nat) (pages : List (List PageImage))
          (page : List PageImage) (d : PageImage),
        page ∈ pages → d ∈ page → mw ≤ d.width → mh ≤ d.height →
          d ∈ extract_images_from_pdf mw mh pages) := by
  refine ⟨?_, ?_, ?_⟩
  · intro vision imgs
    show (imgs.enum.foldl (analyzeStep vision) ([], 0)).2 = imgs.length
    rw [analyze_count]
    simp [List.enum_length]
  · intro mw mh pages d hd
    unfold extract_images_from_pdf at hd
    rw [List.mem_flatten] at hd
    obtain ⟨l, hl, hdl⟩ := hd
    rw [List.mem_map] at hl
    obtain ⟨page, _, rfl⟩ := hl
    rw [List.mem_filter] at hdl
    have := hdl.2
    simp only [Bool.not_eq_true', Bool.or_eq_false_iff,
      decide_eq_false_iff_not, Nat.not_lt] at this
    exact ⟨this.1, this.2⟩
  · intro mw mh pages page d hpage hd hw hh
    unfold extract_images_from_pdf
    rw [List.mem_flatten]
    refine ⟨page.filter (fun d => !(d.width < mw || d.height < mh)),
      List.mem_map_of_mem _ hpage, ?_⟩
    rw [List.mem_filter]
    refine ⟨hd, ?_⟩
    simp only [Bool.not_eq_true', Bool.or_eq_false_iff,
      decide_eq_false_iff_not, Nat.not_lt]
    exact ⟨hw, hh⟩

theorem image_threshold_witness :
    (⟨600, 700, "big"⟩ : PageImage) ∈ [(⟨600, 700, "big"⟩ : PageImage)] ∧
      (500 ≤ 600 ∧ 500 ≤ 700) ∧
      (⟨600, 700, "big"⟩ : PageImage) ∈
        extract_images_from_pdf 500 500 [[⟨600, 700, "big"⟩]] :=
  ⟨by decide, ⟨by decide, by decide⟩,
    image_threshold.2.2 500 500 [[⟨600, 700, "big"⟩]] [⟨600, 700, "big"⟩]
      ⟨600, 700, "big"⟩ (by decide) (by decide) (by decide) (by decide)⟩

/-! ## C6 — edge weights stay in the unit interval -/

/-- Every Document trust score of the state lies in `[0,1]`. -/
def DocsInRange (g : NGraph) : Prop :=
  ∀ p ∈ g.docs, 0 ≤ p.2 ∧ p.2 ≤ 1

/-- Every RELATION weight of the state lies in `[0,1]`. -/
def WeightsInRange (g : NGraph) : Prop :=
  ∀ p ∈ g.rels, 0 ≤ p.2.weight ∧ p.2.weight ≤ 1

/-- A matched Document trust score is one of the stored ones. -/
lemma findDoc_mem (g : NGraph) (src : String) (t : ℚ)
    (h : findDoc g src = some t) : ∃ p ∈ g.docs, p.2 = t := by
  unfold findDoc at h
  split at h
  · next p hp =>
    exact ⟨p, List.mem_of_find?_eq_some hp, Option.some_inj.1 h⟩
  · exact absurd h (by simp)

/-- A `MERGE` on a Concept never touches the Document nodes. -/
lemma mergeConcept_docs (g : NGraph) (n : String) :
    (mergeConcept g n).1.docs = g.docs := by
  unfold mergeConcept
  split <;> rfl

/-- A `MERGE` on a Concept never touches the relationships. -/
lemma mergeConcept_rels (g : NGraph) (n : String) :
    (mergeConcept g n).1.rels = g.rels := by
  unfold mergeConcept
  split <;> rfl

/-- The merge query never touches the Document nodes. -/
lemma saveTriple_docs (g : NGraph) (source subj pred obj : String) :
    (saveTriple g source subj pred obj).docs = g.docs := by
  unfold saveTriple
  split
  · rfl
  · dsimp only
    split
    · show (mergeConcept (mergeConcept g subj).1 obj).1.docs = g.docs
      rw [mergeConcept_docs, mergeConcept_docs]
    · show (updateRel (mergeConcept (mergeConcept g subj).1 obj).1 _ _).docs
          = g.docs
      unfold updateRel
      show (mergeConcept (mergeConcept g subj).1 obj).1.docs = g.docs
      rw [mergeConcept_docs, mergeConcept_docs]

/-- One merge query preserves the weight invariant: a created edge takes
the source document's trust score, a matched edge moves to the average
of its weight and that score, and both stay in `[0,1]`. -/
lemma saveTriple_weights (g : NGraph) (source subj pred obj : String)
    (hdocs : DocsInRange g) (hw : WeightsInRange g) :
    WeightsInRange (saveTriple g source subj pred obj) := by
  unfold saveTriple
  split
  · exact hw
  · next trust hfind =>
    have htrust : 0 ≤ trust ∧ trust ≤ 1 := by
      obtain ⟨p, hmem, hpt⟩ := findDoc_mem g source trust hfind
      exact hpt ▸ hdocs p hmem
    have hr2 : (mergeConcept (mergeConcept g subj).1 obj).1.rels = g.rels := by
      rw [mergeConcept_rels, mergeConcept_rels]
    dsimp only
    split
    · -- ON CREATE
      intro p hp
      simp only [List.mem_append, List.mem_singleton] at hp
      rcases hp with hp | hp
      · exact hw p (hr2 ▸ hp)
      · rw [hp]
        exact htrust
    · -- ON MATCH
      next rid hrel =>
      intro p hp
      unfold updateRel at hp
      simp only [List.mem_map] at hp
      obtain ⟨q, hq, hpq⟩ := hp
      have hqw := hw q (hr2 ▸ hq)
      by_cases hid : (q.1 == rid) = true
      · rw [if_pos hid] at hpq
        rw [← hpq]
        constructor
        · have := htrust.1
          have := hqw.1
          dsimp only
          linarith
        · have := htrust.2
          have := hqw.2
          dsimp only
          linarith
      · rw [if_neg hid] at hpq
        exact hpq ▸ hqw

/-- C6: for every sequence of merge-query upserts (any mix of triples
and source documents, which covers in particular repeated upserts of one
triple), if all stored trust scores lie in `[0,1]` and all existing edge
weights do, then after the whole sequence every edge weight still lies
in `[0,1]`. -/
theorem edge_weight_in_unit_interval (g : NGraph)
    (ops : List (String × String × String × String))
    (hdocs : DocsInRange g) (hw : WeightsInRange g) :
    WeightsInRange
      (ops.foldl (fun g u => saveTriple g u.1 u.2.1 u.2.2.1 u.2.2.2) g) := by
  induction ops generalizing g with
  | nil => exact hw
  | cons u ops ih =>
    rw [List.foldl_cons]
    have hdocs' : DocsInRange (saveTriple g u.1 u.2.1 u.2.2.1 u.2.2.2) := by
      unfold DocsInRange
      rw [saveTriple_docs]
      exact hdocs
    exact ih _ hdocs' (saveTriple_weights g u.1 u.2.1 u.2.2.1 u.2.2.2 hdocs hw)

/-- A one-document starting state used by concrete witnesses. -/
def unitDocState : NGraph :=
  { docs := [("d1", 1)], nodes := [], rels := [],
    nextNodeId := 0, nextRelId := 0, now := 0 }

theorem edge_weight_in_unit_interval_witness :
    DocsInRange unitDocState ∧ WeightsInRange unitDocState ∧
      WeightsInRange
        ([("d1", "A", "IS_A", "B"), ("d1", "A", "IS_A", "B")].foldl
          (fun g u => saveTriple g u.1 u.2.1 u.2.2.1 u.2.2.2)
          unitDocState) := by
  have h1 : DocsInRange unitDocState := by
    intro p hp
    simp only [unitDocState, List.mem_singleton] at hp
    rw [hp]
    exact ⟨zero_le_one, le_refl 1⟩
  have h2 : WeightsInRange unitDocState := by
    intro p hp
    simp [unitDocState] at hp
  exact ⟨h1, h2, edge_weight_in_unit_interval _ _ h1 h2⟩

/-! ## C10 — shape of the normalized triples -/

/-- The decimal digit list of a natural number is never empty. -/
lemma natDigits_ne_nil (n : Nat) : natDigits n ≠ [] := by
  rw [natDigits]
  split
  · simp
  · simp

/-- Python's `str()` of an integer is never the empty string. -/
lemma intRepr_ne_empty (n : Int) : intRepr n ≠ "" := by
  intro h
  have hd := congrArg String.data h
  simp only [intRepr] at hd
  have : ((if n < 0 then [Char.ofNat 45] else []) ++ natDigits n.natAbs)
      = [] := hd
  exact natDigits_ne_nil n.natAbs (List.append_eq_nil.1 this).2

/-- Python's `str()` of a truthy value is never the empty string. -/
lemma truthy_pyStr (v : JVal) (h : truthy v = true) : pyStr v ≠ "" := by
  cases v with
  | null => simp [truthy] at h
  | bool b =>
    cases b
    · simp [truthy] at h
    · show pyRepr (.bool true) ≠ ""
      simp [pyRepr]
  | num n => exact intRepr_ne_empty n
  | str s =>
    simp only [truthy, bne_iff_ne, ne_eq] at h
    exact h
  | arr xs =>
    have e : pyStr (.arr xs)
        = "[" ++ String.intercalate ", " (pyReprList xs) ++ "]" := by
      simp [pyStr, pyRepr]
    rw [e]
    intro hc
    have hlen := congrArg String.length hc
    rw [String.length_append, String.length_append] at hlen
    have h1 : ("[" : String).length = 1 := rfl
    have h2 : ("]" : String).length = 1 := rfl
    have h0 : ("" : String).length = 0 := rfl
    omega
  | obj fs =>
    have e : pyStr (.obj fs)
        = "\x7b" ++ String.intercalate ", " (pyReprFields fs) ++ "\x7d" := by
      simp [pyStr, pyRepr]
    rw [e]
    intro hc
    have hlen := congrArg String.length hc
    rw [String.length_append, String.length_append] at hlen
    have h1 : ("\x7b" : String).length = 1 := rfl
    have h2 : ("\x7d" : String).length = 1 := rfl
    have h0 : ("" : String).length = 0 := rfl
    omega

/-- The append-accumulator loop of the normalization equals
filter-then-map. -/
lemma normalizeTriples_acc (ts : List (List (String × JVal))) :
    ∀ acc, ts.foldl
        (fun acc t => if keepTriple t then acc ++ [mkTripleRec t] else acc)
        acc
      = acc ++ (ts.filter keepTriple).map mkTripleRec := by
  induction ts with
  | nil => intro acc; simp
  | cons t ts ih =>
    intro acc
    rw [List.foldl_cons, List.filter_cons]
    by_cases hk : keepTriple t = true
    · rw [if_pos hk, if_pos hk, ih, List.map_cons]
      simp
    · rw [if_neg hk, if_neg hk, ih]

/-- C10: every record returned by `_extract_knowledge` has exactly the
keys `subject`, `predicate`, `object` in that order, each bound to a
non-empty string; and the normalization loop is exactly
filter-then-normalize — a candidate whose subject/predicate/object
value (under any accepted alias) is missing or falsy is silently
dropped, the rest are kept in order. -/
theorem extract_normalized_triples :
    (∀ (model : String → Option JVal) (content : String)
        (rec : List (String × String)),
        rec ∈ (extract_knowledge model content).1 →
          rec.map Prod.fst = ["subject", "predicate", "object"] ∧
          ∀ kv ∈ rec, kv.2 ≠ "") ∧
      (∀ ts, normalizeTriples ts = (ts.filter keepTriple).map mkTripleRec)
      := by
  have hnorm : ∀ ts, normalizeTriples ts
      = (ts.filter keepTriple).map mkTripleRec := by
    intro ts
    unfold normalizeTriples
    simpa using normalizeTriples_acc ts []
  refine ⟨?_, hnorm⟩
  intro model content rec hrec
  unfold extract_knowledge at hrec
  split at hrec
  · simp at hrec
  · split at hrec
    · simp at hrec
    · next data _ =>
      simp only at hrec
      rw [hnorm] at hrec
      obtain ⟨t, ht, rfl⟩ := List.mem_map.1 hrec
      have hk : keepTriple t = true := (List.mem_filter.1 ht).2
      rw [keepTriple, Bool.and_eq_true, Bool.and_eq_true] at hk
      obtain ⟨⟨hsub, hpred⟩, hobj⟩ := hk
      refine ⟨rfl, ?_⟩
      intro kv hkv
      simp only [mkTripleRec, List.mem_cons, List.mem_singleton,
        List.not_mem_nil, or_false] at hkv
      rcases hkv with h | h | h
      · rw [h]
        exact truthy_pyStr _ hsub
      · rw [h]
        exact truthy_pyStr _ hpred
      · rw [h]
        exact truthy_pyStr _ hobj

/-- An extraction-model response holding one well-formed candidate. -/
def exampleModel : String → Option JVal := fun _ =>
  some (.obj [("triples", .arr
    [.obj [("subject", .str "axon"), ("p", .str "is a"),
           ("o", .str "neurite")]])])

/-- A page content long enough to avoid the short-circuit. -/
def exampleContent : String :=
  "The axon is a long slender projection of a neuron that conducts impulses."

theorem extract_normalized_triples_witness :
    ([("subject", "axon"), ("predicate", "is a"), ("object", "neurite")]
        ∈ (extract_knowledge exampleModel exampleContent).1) ∧
      [("subject", "axon"), ("predicate", "is a"),
        ("object", "neurite")].map Prod.fst
        = ["subject", "predicate", "object"] ∧
      ∀ kv ∈ [("subject", "axon"), ("predicate", "is a"),
              ("object", "neurite")], kv.2 ≠ "" := by
  have hmem : [("subject", "axon"), ("predicate", "is a"),
      ("object", "neurite")]
      ∈ (extract_knowledge exampleModel exampleContent).1 := by
    with_unfolding_all decide
  exact ⟨hmem,
    (extract_normalized_triples.1 exampleModel exampleContent _ hmem).1,
    (extract_normalized_triples.1 exampleModel exampleContent _ hmem).2⟩

/-! ## C7 — review commit: VALIDATED, idempotent, never backward -/

/-- Updating properties of one relationship leaves the id of every list
entry unchanged, so id-keyed `find?` commutes with the update map. -/
lemma find?_id_map (l : List (Nat × Rel)) (i : Nat) (f : Rel → Rel)
    (y : Nat) :
    (l.map (fun p => if p.1 == i then (p.1, f p.2) else p)).find?
        (fun p => p.1 == y)
      = (l.find? (fun p => p.1 == y)).map
          (fun p => if p.1 == i then (p.1, f p.2) else p) := by
  rw [List.find?_map]
  have hcomp : ((fun p : Nat × Rel => p.1 == y) ∘
      fun p : Nat × Rel => if p.1 == i then (p.1, f p.2) else p)
      = fun p : Nat × Rel => p.1 == y := by
    funext q
    by_cases h : q.1 == i
    · simp [Function.comp, h]
    · simp [Function.comp, h]
  rw [hcomp]

/-- A VALIDATED observed status survives appending fresh relationships. -/
lemma relStatusL_append (l l' : List (Nat × Rel)) (y : Nat) (s : String)
    (h : relStatusL l y = some s) : relStatusL (l ++ l') y = some s := by
  unfold relStatusL at h ⊢
  rw [List.find?_append]
  cases hy : l.find? (fun p => p.1 == y) with
  | none => rw [hy] at h; exact absurd h (by simp)
  | some q =>
    rw [hy] at h
    simp only [Option.or_some]
    exact h

/-- A VALIDATED observed status survives an id-keyed property update
whose writer either keeps the status or writes `VALIDATED`. -/
lemma relStatusL_update (l : List (Nat × Rel)) (y i : Nat) (f : Rel → Rel)
    (hf : ∀ r, (f r).status = r.status ∨ (f r).status = some "VALIDATED")
    (h : relStatusL l y = some "VALIDATED") :
    relStatusL (l.map (fun p => if p.1 == i then (p.1, f p.2) else p)) y
      = some "VALIDATED" := by
  unfold relStatusL at h ⊢
  rw [find?_id_map]
  cases hy : l.find? (fun p => p.1 == y) with
  | none => rw [hy] at h; exact absurd h (by simp)
  | some q =>
    rw [hy] at h
    dsimp only [Option.map]
    by_cases hq : q.1 == i
    · rw [if_pos hq]
      rcases hf q.2 with hk | hk
      · simpa only [hk] using h
      · simp [hk]
    · rw [if_neg hq]
      exact h

/-- The function `mergeConcept` does not touch the fresh-relationship counter. -/
lemma mergeConcept_nextRelId (g : NGraph) (n : String) :
    (mergeConcept g n).1.nextRelId = g.nextRelId := by
  unfold mergeConcept
  split <;> rfl

/-- The commit writer of `commit_triples`: new predicate text, status
`VALIDATED`, fresh `validated_at` stamp. -/
def commitWriter (row : CommitRow) (now : Nat) (r : Rel) : Rel :=
  { r with typ := row.predicate.toUpper,
           status := some "VALIDATED",
           validated_at := some now }

/-- The relationship list after a matched `commitRow`, explicitly. -/
lemma commitRow_rels_of_found (g : NGraph) (row : CommitRow)
    (pr : Nat × Rel)
    (h : g.rels.find? (fun p => p.1 == row.rel_id) = some pr) :
    (commitRow g row).1.rels
      = g.rels.map (fun p => if p.1 == row.rel_id then
          (p.1, commitWriter row g.now p.2) else p) := by
  unfold commitRow
  rw [h]
  rfl

/-- A matched `commitRow` reports one updated row. -/
lemma commitRow_count_of_found (g : NGraph) (row : CommitRow)
    (pr : Nat × Rel)
    (h : g.rels.find? (fun p => p.1 == row.rel_id) = some pr) :
    (commitRow g row).2 = 1 := by
  unfold commitRow
  rw [h]

/-- A `commitRow` that misses leaves the state unchanged. -/
lemma commitRow_of_none (g : NGraph) (row : CommitRow)
    (h : g.rels.find? (fun p => p.1 == row.rel_id) = none) :
    commitRow g row = (g, 0) := by
  unfold commitRow
  rw [h]

/-- A VALIDATED observed status survives any `commitRow` (a commit only
ever writes `VALIDATED`). -/
lemma relStatus_commitRow (g : NGraph) (row : CommitRow) (y : Nat)
    (h : relStatus g y = some "VALIDATED") :
    relStatus (commitRow g row).1 y = some "VALIDATED" := by
  cases hf : g.rels.find? (fun p => p.1 == row.rel_id) with
  | none => rw [commitRow_of_none g row hf]; exact h
  | some pr =>
    unfold relStatus
    rw [commitRow_rels_of_found g row pr hf]
    exact relStatusL_update g.rels y row.rel_id _
      (fun r => Or.inr rfl) h

/-- A VALIDATED observed status survives a whole `commit_triples`
batch. -/
lemma relStatus_commit_triples (g : NGraph) (rows : List CommitRow)
    (y : Nat) (h : relStatus g y = some "VALIDATED") :
    relStatus (commit_triples g rows).1 y = some "VALIDATED" := by
  unfold commit_triples
  suffices hgen : ∀ acc : NGraph × Nat, relStatus acc.1 y = some "VALIDATED" →
      relStatus (rows.foldl (fun acc row =>
        ((commitRow acc.1 row).1, acc.2 + (commitRow acc.1 row).2)) acc).1 y
        = some "VALIDATED" by
    exact hgen (g, 0) h
  induction rows with
  | nil => intro acc hacc; exact hacc
  | cons row rows ih =>
    intro acc hacc
    rw [List.foldl_cons]
    exact ih _ (relStatus_commitRow acc.1 row y hacc)

/-- The three possible shapes of the relationship list after one merge
query: untouched (no source Document), one fresh appended relationship
(`ON CREATE`), or an id-keyed weight/sources update (`ON MATCH`). -/
lemma saveTriple_rels_cases (g : NGraph) (source subj pred obj : String) :
    (saveTriple g source subj pred obj).rels = g.rels ∨
      (∃ R nr, (saveTriple g source subj pred obj).rels
        = g.rels ++ [(R, nr)]) ∨
      (∃ i t, (saveTriple g source subj pred obj).rels
        = g.rels.map (fun p => if p.1 == i then
            (p.1, { p.2 with weight := (p.2.weight + t) / 2,
                             sources := p.2.sources ++ [source] })
          else p)) := by
  unfold saveTriple
  split
  · left; rfl
  · next trust hfind =>
    dsimp only
    have hr2 : (mergeConcept (mergeConcept g subj).1 obj).1.rels
        = g.rels := by
      rw [mergeConcept_rels, mergeConcept_rels]
    split
    · right; left
      exact ⟨(mergeConcept (mergeConcept g subj).1 obj).1.nextRelId, _,
        by rw [← hr2]⟩
    · next rid hrid =>
      right; right
      refine ⟨rid, trust, ?_⟩
      unfold updateRel
      rw [← hr2]

/-- A VALIDATED observed status survives the merge query (the upsert
never writes `status`: `ON CREATE` creates a fresh relationship,
`ON MATCH` touches only `weight` and `sources`). -/
lemma relStatus_saveTriple (g : NGraph) (source subj pred obj : String)
    (y : Nat) (h : relStatus g y = some "VALIDATED") :
    relStatus (saveTriple g source subj pred obj) y = some "VALIDATED" := by
  unfold relStatus
  rcases saveTriple_rels_cases g source subj pred obj with hc | ⟨R, nr, hc⟩
    | ⟨i, t, hc⟩
  · rw [hc]; exact h
  · rw [hc]
    exact relStatusL_append g.rels [(R, nr)] y _ h
  · rw [hc]
    exact relStatusL_update g.rels y i
      (fun r => { r with weight := (r.weight + t) / 2,
                         sources := r.sources ++ [source] })
      (fun r => Or.inl rfl) h

/-- C7: committing a matched edge identity sets its observed status to
VALIDATED and a non-null `validated_at`; a second commit of the same row
again matches (count 1, no error — the model is total) and leaves the
status VALIDATED; and no modelled operation (neither the merge query nor
any commit batch) ever moves an edge whose observed status is VALIDATED
back to PROVISIONAL. -/
theorem review_commit_validated (g : NGraph) (x : Nat) (r : Rel)
    (row : CommitRow)
    (hx : g.rels.find? (fun p => p.1 == x) = some (x, r))
    (hrow : row.rel_id = x) :
    relStatus (commit_triples g [row]).1 x = some "VALIDATED" ∧
      (relValidatedAt (commit_triples g [row]).1 x).isSome = true ∧
      (commit_triples g [row]).2 = 1 ∧
      (commit_triples (commit_triples g [row]).1 [row]).2 = 1 ∧
      relStatus (commit_triples (commit_triples g [row]).1 [row]).1 x
        = some "VALIDATED" ∧
      (∀ (g' : NGraph) (y : Nat), relStatus g' y = some "VALIDATED" →
        (∀ source subj pred obj,
          relStatus (saveTriple g' source subj pred obj) y
            = some "VALIDATED") ∧
        (∀ rows, relStatus (commit_triples g' rows).1 y
            = some "VALIDATED")) := by
  subst hrow
  have hxx : (row.rel_id == row.rel_id) = true := by simp
  have hone : ∀ h : NGraph, commit_triples h [row]
      = ((commitRow h row).1, (commitRow h row).2) := by
    intro h
    unfold commit_triples
    rw [List.foldl_cons, List.foldl_nil]
    dsimp only
    rcases hcr : commitRow h row with ⟨g1, n⟩
    simp
  have hfind1 : (commitRow g row).1.rels.find?
      (fun p => p.1 == row.rel_id)
      = some (row.rel_id, commitWriter row g.now r) := by
    rw [commitRow_rels_of_found g row (row.rel_id, r) hx, find?_id_map, hx]
    dsimp only [Option.map]
    rw [if_pos hxx]
  have hstat1 : relStatus (commit_triples g [row]).1 row.rel_id
      = some "VALIDATED" := by
    rw [hone]
    unfold relStatus relStatusL
    rw [hfind1]
    rfl
  refine ⟨hstat1, ?_, ?_, ?_, ?_, ?_⟩
  · rw [hone]
    unfold relValidatedAt
    rw [hfind1]
    rfl
  · rw [hone]
    exact commitRow_count_of_found g row (row.rel_id, r) hx
  · rw [hone, hone]
    exact commitRow_count_of_found (commitRow g row).1 row
      (row.rel_id, commitWriter row g.now r) hfind1
  · rw [hone]
    exact relStatus_commitRow (commit_triples g [row]).1 row row.rel_id
      hstat1
  · intro g' y hval
    exact ⟨fun source subj pred obj =>
      relStatus_saveTriple g' source subj pred obj y hval,
      fun rows => relStatus_commit_triples g' rows y hval⟩

/-- A state holding one PROVISIONAL relationship, id 5. -/
def oneEdgeState : NGraph :=
  { docs := [("d1", 1)],
    nodes := [(0, "A"), (1, "B")],
    rels := [(5, { src := 0, dst := 1, typ := "IS_A", weight := 1,
                   sources := ["d1"], status := none, validated_at := none })],
    nextNodeId := 2, nextRelId := 6, now := 7 }

theorem review_commit_validated_witness :
    (oneEdgeState.rels.find? (fun p => p.1 == 5)
        = some (5, { src := 0, dst := 1, typ := "IS_A", weight := 1,
                     sources := ["d1"], status := none,
                     validated_at := none })) ∧
      relStatus (commit_triples oneEdgeState [⟨5, "A", "is a", "B"⟩]).1 5
        = some "VALIDATED" ∧
      (commit_triples oneEdgeState [⟨5, "A", "is a", "B"⟩]).2 = 1 :=
  ⟨rfl,
    (review_commit_validated oneEdgeState 5 _ ⟨5, "A", "is a", "B"⟩ rfl
      rfl).1,
    (review_commit_validated oneEdgeState 5 _ ⟨5, "A", "is a", "B"⟩ rfl
      rfl).2.2.1⟩

/-! ## C1 — incremental weight averaging on upsert -/

/-- A found name survives appending more nodes. -/
lemma findNodeL_append_some (l l' : List (Nat × String)) (n : String)
    (i : Nat) (h : findNodeL l n = some i) :
    findNodeL (l ++ l') n = some i := by
  unfold findNodeL at h ⊢
  rw [List.find?_append]
  cases hf : l.find? (fun p => p.2 == n) with
  | none => rw [hf] at h; exact absurd h (by simp)
  | some q =>
    rw [hf] at h
    simp only [Option.or_some]
    exact h

/-- Resolution of a name missing on the left falls to the appended
nodes. -/
lemma findNodeL_append_none (l l' : List (Nat × String)) (n : String)
    (h : findNodeL l n = none) :
    findNodeL (l ++ l') n = findNodeL l' n := by
  unfold findNodeL at h ⊢
  rw [List.find?_append]
  cases hf : l.find? (fun p => p.2 == n) with
  | none => rfl
  | some q => rw [hf] at h; exact absurd h (by simp)

/-- A singleton node list resolves its own name. -/
lemma findNodeL_singleton_self (j : Nat) (n : String) :
    findNodeL [(j, n)] n = some j := by
  unfold findNodeL
  simp

/-- A `MERGE` binds the merged name to the returned id. -/
lemma mergeConcept_findNode_self (g : NGraph) (n : String) :
    findNode (mergeConcept g n).1 n = some (mergeConcept g n).2 := by
  unfold mergeConcept
  split
  · next i hi => exact hi
  · next hnone =>
    show findNodeL (g.nodes ++ [(g.nextNodeId, n)]) n = some g.nextNodeId
    rw [findNodeL_append_none _ _ _ hnone]
    exact findNodeL_singleton_self _ _

/-- A `MERGE` of one name does not change the resolution of an already
resolvable name. -/
lemma mergeConcept_findNode_mono (g : NGraph) (n m : String) (i : Nat)
    (h : findNode g m = some i) :
    findNode (mergeConcept g n).1 m = some i := by
  unfold mergeConcept
  split
  · exact h
  · show findNodeL (g.nodes ++ [(g.nextNodeId, n)]) m = some i
    exact findNodeL_append_some _ _ _ _ h

/-- A fresh `MERGE` returns the fresh-node counter as the bound id. -/
lemma mergeConcept_fresh_id (g : NGraph) (n : String)
    (h : findNode g n = none) :
    (mergeConcept g n).2 = g.nextNodeId := by
  unfold mergeConcept
  rw [h]

/-- A `MERGE` that matches returns the matched id unchanged. -/
lemma mergeConcept_found (g : NGraph) (n : String) (i : Nat)
    (h : findNode g n = some i) : mergeConcept g n = (g, i) := by
  unfold mergeConcept
  rw [h]

/-- A resolved node id is bounded by the fresh-node counter. -/
lemma findNode_id_lt (g : NGraph) (m : String) (i : Nat)
    (hb : ∀ p ∈ g.nodes, p.1 < g.nextNodeId)
    (h : findNode g m = some i) : i < g.nextNodeId := by
  unfold findNode findNodeL at h
  split at h
  · next q hq =>
    have h1 := hb q (List.mem_of_find?_eq_some hq)
    have h2 := Option.some_inj.1 h
    omega
  · exact absurd h (by simp)

/-- A relationship list none of whose entries matches the
(src, dst, type) key has no matching relationship. -/
lemma findRelL_eq_none (l : List (Nat × Rel)) (sid oid : Nat) (ty : String)
    (h : ∀ p ∈ l,
      ¬((p.2.src == sid && p.2.dst == oid && p.2.typ == ty) = true)) :
    findRelL l sid oid ty = none := by
  unfold findRelL
  rw [List.find?_eq_none.2 h]

/-- Inversion: an unmatched (src, dst, type) key means no entry
matches. -/
lemma findRelL_none_inv (l : List (Nat × Rel)) (sid oid : Nat)
    (ty : String) (h : findRelL l sid oid ty = none) :
    ∀ p ∈ l,
      ¬((p.2.src == sid && p.2.dst == oid && p.2.typ == ty) = true) := by
  unfold findRelL at h
  split at h
  · exact absurd h (by simp)
  · next hf => exact List.find?_eq_none.1 hf

/-- Resolving a positive edge view from its three lookups. -/
lemma edgeView_some (g : NGraph) (s ty o : String) (sid oid R : Nat)
    (r0 : Rel)
    (hs : findNode g s = some sid) (ho : findNode g o = some oid)
    (hr : findRel g sid oid ty = some R)
    (hid : g.rels.find? (fun p => p.1 == R) = some (R, r0)) :
    edgeView g s ty o = some r0 := by
  unfold edgeView
  simp only [hs, ho, hr, hid]

/-- Inversion: with both endpoints resolvable, an empty edge view means
the (src, dst, type) key is unmatched. -/
lemma edgeView_none_findRel (g : NGraph) (s ty o : String) (sid oid : Nat)
    (hs : findNode g s = some sid) (ho : findNode g o = some oid)
    (h : edgeView g s ty o = none) : findRel g sid oid ty = none := by
  unfold edgeView at h
  simp only [hs, ho] at h
  cases hr : findRel g sid oid ty with
  | none => rfl
  | some R =>
    rw [hr] at h
    dsimp only at h
    unfold findRel findRelL at hr
    split at hr
    · next pr hpr =>
      have hmem := List.mem_of_find?_eq_some hpr
      have hR : pr.1 = R := Option.some_inj.1 hr
      have hsome : (g.rels.find? (fun p => p.1 == R)).isSome :=
        List.find?_isSome.2 ⟨pr, hmem, by rw [hR]; simp⟩
      cases hfq : g.rels.find? (fun p => p.1 == R) with
      | none => rw [hfq] at hsome; exact absurd hsome (by simp)
      | some q => rw [hfq] at h; exact absurd h (by simp)
    · exact absurd hr (by simp)

/-- The merge query in the `ON CREATE` case, written out. -/
lemma saveTriple_eq_create (g : NGraph) (src1 subj ty obj : String)
    (t1 : ℚ) (h1 : findDoc g src1 = some t1)
    (hfr : findRel (mergeConcept (mergeConcept g subj).1 obj).1
        (mergeConcept g subj).2
        (mergeConcept (mergeConcept g subj).1 obj).2 ty = none) :
    saveTriple g src1 subj ty obj
      = { (mergeConcept (mergeConcept g subj).1 obj).1 with
          rels := (mergeConcept (mergeConcept g subj).1 obj).1.rels
            ++ [((mergeConcept (mergeConcept g subj).1 obj).1.nextRelId,
                 { src := (mergeConcept g subj).2,
                   dst := (mergeConcept (mergeConcept g subj).1 obj).2,
                   typ := ty, weight := t1, sources := [src1],
                   status := none, validated_at := none })],
          nextRelId :=
            (mergeConcept (mergeConcept g subj).1 obj).1.nextRelId + 1 } := by
  unfold saveTriple
  rw [h1]
  dsimp only
  rw [hfr]

/-- The merge query in the `ON MATCH` case, written out. -/
lemma saveTriple_eq_match (g : NGraph) (src2 subj ty obj : String)
    (t2 : ℚ) (sid oid R : Nat) (h2 : findDoc g src2 = some t2)
    (hs : findNode g subj = some sid) (ho : findNode g obj = some oid)
    (hfrel : findRel g sid oid ty = some R) :
    saveTriple g src2 subj ty obj
      = updateRel g R (fun r =>
          { r with weight := (r.weight + t2) / 2,
                   sources := r.sources ++ [src2] }) := by
  unfold saveTriple
  rw [h2]
  dsimp only
  rw [mergeConcept_found g subj sid hs]
  dsimp only
  rw [mergeConcept_found g obj oid ho]
  dsimp only
  rw [hfrel]

/-- The (src, dst, type)-keyed `find?` commutes with an id-keyed property
update that keeps src, dst and type. -/
lemma find?_rel_map (l : List (Nat × Rel)) (i : Nat) (f : Rel → Rel)
    (sid oid : Nat) (ty : String)
    (hf : ∀ r, (f r).src = r.src ∧ (f r).dst = r.dst ∧ (f r).typ = r.typ) :
    (l.map (fun p => if p.1 == i then (p.1, f p.2) else p)).find?
        (fun p => p.2.src == sid && p.2.dst == oid && p.2.typ == ty)
      = (l.find? (fun p =>
          p.2.src == sid && p.2.dst == oid && p.2.typ == ty)).map
          (fun p => if p.1 == i then (p.1, f p.2) else p) := by
  rw [List.find?_map]
  have hcomp : ((fun p : Nat × Rel =>
        p.2.src == sid && p.2.dst == oid && p.2.typ == ty) ∘
      fun p : Nat × Rel => if p.1 == i then (p.1, f p.2) else p)
      = fun p : Nat × Rel =>
        p.2.src == sid && p.2.dst == oid && p.2.typ == ty := by
    funext q
    by_cases h : q.1 == i
    · simp [Function.comp, h, (hf q.2).1, (hf q.2).2.1, (hf q.2).2.2]
    · simp [Function.comp, h]
  rw [hcomp]

/-- The state after a first observation of a new (subject, type, object)
key: both endpoint names resolve, one fresh relationship holding the
document's trust score and a singleton provenance list is appended, the
Document nodes are untouched, and no pre-existing relationship matches
either the new key or the fresh id. -/
lemma saveTriple_create (g : NGraph) (src1 subj ty obj : String) (t1 : ℚ)
    (hwf : WF g) (h1 : findDoc g src1 = some t1)
    (hnew : edgeView g subj ty obj = none) :
    ∃ sid oid,
      findNode (saveTriple g src1 subj ty obj) subj = some sid ∧
      findNode (saveTriple g src1 subj ty obj) obj = some oid ∧
      (saveTriple g src1 subj ty obj).rels
        = g.rels ++ [(g.nextRelId,
            { src := sid, dst := oid, typ := ty, weight := t1,
              sources := [src1], status := none, validated_at := none })] ∧
      (saveTriple g src1 subj ty obj).docs = g.docs ∧
      (∀ p ∈ g.rels,
        ¬((p.2.src == sid && p.2.dst == oid && p.2.typ == ty) = true)) ∧
      (∀ p ∈ g.rels, p.1 ≠ g.nextRelId) := by
  obtain ⟨hnodesB, hrelsB⟩ := hwf
  have hbounds : ∀ p ∈ g.rels,
      p.2.src < g.nextNodeId ∧ p.2.dst < g.nextNodeId := by
    intro p hp
    obtain ⟨-, ⟨qs, hqs, hqs1⟩, ⟨qd, hqd, hqd1⟩⟩ := hrelsB p hp
    exact ⟨hqs1 ▸ hnodesB qs hqs, hqd1 ▸ hnodesB qd hqd⟩
  have hids : ∀ p ∈ g.rels, p.1 ≠ g.nextRelId :=
    fun p hp => Nat.ne_of_lt (hrelsB p hp).1
  have hBsubj : findNode (mergeConcept (mergeConcept g subj).1 obj).1 subj
      = some (mergeConcept g subj).2 :=
    mergeConcept_findNode_mono _ _ _ _ (mergeConcept_findNode_self g subj)
  have hBobj : findNode (mergeConcept (mergeConcept g subj).1 obj).1 obj
      = some (mergeConcept (mergeConcept g subj).1 obj).2 :=
    mergeConcept_findNode_self _ obj
  have hBrels : (mergeConcept (mergeConcept g subj).1 obj).1.rels
      = g.rels := by rw [mergeConcept_rels, mergeConcept_rels]
  have hBdocs : (mergeConcept (mergeConcept g subj).1 obj).1.docs
      = g.docs := by rw [mergeConcept_docs, mergeConcept_docs]
  have hBnri : (mergeConcept (mergeConcept g subj).1 obj).1.nextRelId
      = g.nextRelId := by
    rw [mergeConcept_nextRelId, mergeConcept_nextRelId]
  -- no pre-existing relationship matches the key, in each resolution case
  have hpred : ∀ p ∈ g.rels,
      ¬((p.2.src == (mergeConcept g subj).2 &&
         p.2.dst == (mergeConcept (mergeConcept g subj).1 obj).2 &&
         p.2.typ == ty) = true) := by
    cases hsubj : findNode g subj with
    | none =>
      -- fresh subject id: no old relationship can have it as source
      have hsid : (mergeConcept g subj).2 = g.nextNodeId :=
        mergeConcept_fresh_id g subj hsubj
      intro p hp hcontra
      simp only [Bool.and_eq_true, beq_iff_eq] at hcontra
      have hsrc : p.2.src = g.nextNodeId := by
        rw [← hsid]
        exact hcontra.1.1
      exact absurd hsrc (Nat.ne_of_lt (hbounds p hp).1)
    | some sid0 =>
      have hm1 : mergeConcept g subj = (g, sid0) :=
        mergeConcept_found g subj sid0 hsubj
      cases hobj : findNode g obj with
      | none =>
        -- fresh object id (resolved in the unchanged node list)
        have hoid : (mergeConcept (mergeConcept g subj).1 obj).2
            = g.nextNodeId := by
          rw [hm1]
          exact mergeConcept_fresh_id g obj hobj
        intro p hp hcontra
        simp only [Bool.and_eq_true, beq_iff_eq] at hcontra
        have hdst : p.2.dst = g.nextNodeId := by
          rw [← hoid]
          exact hcontra.1.2
        exact absurd hdst (Nat.ne_of_lt (hbounds p hp).2)
      | some oid0 =>
        have hm2 : mergeConcept (mergeConcept g subj).1 obj = (g, oid0) := by
          rw [hm1]
          exact mergeConcept_found g obj oid0 hobj
        have hfr0 : findRel g sid0 oid0 ty = none :=
          edgeView_none_findRel g subj ty obj sid0 oid0 hsubj hobj hnew
        have hnone := findRelL_none_inv g.rels sid0 oid0 ty hfr0
        rw [hm2, hm1]
        exact hnone
  have hfr : findRel (mergeConcept (mergeConcept g subj).1 obj).1
      (mergeConcept g subj).2
      (mergeConcept (mergeConcept g subj).1 obj).2 ty = none := by
    unfold findRel
    rw [hBrels]
    exact findRelL_eq_none _ _ _ _ hpred
  have hsave := saveTriple_eq_create g src1 subj ty obj t1 h1 hfr
  refine ⟨(mergeConcept g subj).2,
    (mergeConcept (mergeConcept g subj).1 obj).2, ?_, ?_, ?_, ?_, hpred,
    hids⟩
  · rw [hsave]
    exact hBsubj
  · rw [hsave]
    exact hBobj
  · rw [hsave]
    dsimp only
    rw [hBrels, hBnri]
  · rw [hsave]
    dsimp only
    rw [hBdocs]

/-- C1: on the first observation of a (subject, normalized-predicate,
object) key from a document with trust `t1`, the edge is created with
weight `t1`, provenance `[src1]` and no status property; a repeat
observation from a document with trust `t2` then moves the weight to
`(t1 + t2) / 2` and appends the source, giving `[src1, src2]` in arrival
order (the two source names may coincide — nothing deduplicates). -/
theorem upsert_weight_averaging (g : NGraph)
    (src1 src2 subj pred obj : String) (t1 t2 : ℚ)
    (hwf : WF g)
    (h1 : findDoc g src1 = some t1)
    (h2 : findDoc g src2 = some t2)
    (hnew : edgeView g subj (normPred pred) obj = none) :
    (∃ r1, edgeView (saveTriple g src1 subj (normPred pred) obj)
        subj (normPred pred) obj = some r1 ∧
      r1.weight = t1 ∧ r1.sources = [src1] ∧ r1.status = none) ∧
      (∃ r2, edgeView
          (saveTriple (saveTriple g src1 subj (normPred pred) obj)
            src2 subj (normPred pred) obj)
          subj (normPred pred) obj = some r2 ∧
        r2.weight = (t1 + t2) / 2 ∧ r2.sources = [src1, src2]) := by
  obtain ⟨sid, oid, hs', ho', hrels', hdocs', hpred, hids⟩ :=
    saveTriple_create g src1 subj (normPred pred) obj t1 hwf h1 hnew
  -- the fresh relationship record and id
  set nr : Rel := { src := sid, dst := oid, typ := normPred pred,
                    weight := t1, sources := [src1], status := none,
                    validated_at := none } with hnr
  -- key-based find? on the new relationship list
  have hpredfind : (saveTriple g src1 subj (normPred pred) obj).rels.find?
      (fun p => p.2.src == sid && p.2.dst == oid &&
        p.2.typ == normPred pred) = some (g.nextRelId, nr) := by
    rw [hrels', List.find?_append, List.find?_eq_none.2 hpred]
    simp [hnr]
  have hidfind : (saveTriple g src1 subj (normPred pred) obj).rels.find?
      (fun p => p.1 == g.nextRelId) = some (g.nextRelId, nr) := by
    rw [hrels', List.find?_append]
    have hnoneL : g.rels.find? (fun p => p.1 == g.nextRelId) = none :=
      List.find?_eq_none.2 (fun p hp => by simp [hids p hp])
    rw [hnoneL]
    simp
  have hfrel : findRel (saveTriple g src1 subj (normPred pred) obj) sid oid
      (normPred pred) = some g.nextRelId := by
    unfold findRel findRelL
    rw [hpredfind]
  constructor
  · exact ⟨nr, edgeView_some _ _ _ _ sid oid g.nextRelId nr hs' ho'
      hfrel hidfind, rfl, rfl, rfl⟩
  · -- second observation: ON MATCH
    have h2' : findDoc (saveTriple g src1 subj (normPred pred) obj) src2
        = some t2 := by
      unfold findDoc
      rw [hdocs']
      exact h2
    have hsave2 := saveTriple_eq_match
      (saveTriple g src1 subj (normPred pred) obj) src2 subj
      (normPred pred) obj t2 sid oid g.nextRelId h2' hs' ho' hfrel
    refine ⟨{ nr with weight := (nr.weight + t2) / 2,
                      sources := nr.sources ++ [src2] }, ?_, rfl, rfl⟩
    rw [hsave2]
    apply edgeView_some _ _ _ _ sid oid g.nextRelId
    · exact hs'
    · exact ho'
    · unfold findRel findRelL updateRel
      dsimp only
      rw [find?_rel_map (saveTriple g src1 subj (normPred pred) obj).rels
        g.nextRelId
        (fun r => { r with weight := (r.weight + t2) / 2,
                           sources := r.sources ++ [src2] })
        sid oid (normPred pred) (fun r => ⟨rfl, rfl, rfl⟩), hpredfind]
      dsimp only [Option.map]
      have hb : (g.nextRelId == g.nextRelId) = true := by simp
      rw [if_pos hb]
    · unfold updateRel
      dsimp only
      rw [find?_id_map (saveTriple g src1 subj (normPred pred) obj).rels
        g.nextRelId
        (fun r => { r with weight := (r.weight + t2) / 2,
                           sources := r.sources ++ [src2] })
        g.nextRelId, hidfind]
      dsimp only [Option.map]
      have hb : (g.nextRelId == g.nextRelId) = true := by simp
      rw [if_pos hb]

theorem upsert_weight_averaging_witness :
    WF unitDocState ∧ findDoc unitDocState "d1" = some 1 ∧
      edgeView unitDocState "A" (normPred "is a") "B" = none ∧
      (∃ r1, edgeView (saveTriple unitDocState "d1" "A" (normPred "is a")
          "B") "A" (normPred "is a") "B" = some r1 ∧
        r1.weight = 1 ∧ r1.sources = ["d1"] ∧ r1.status = none) :=
  ⟨by unfold WF; decide, rfl, rfl,
    (upsert_weight_averaging unitDocState "d1" "d1" "A" "is a" "B" 1 1
      (by unfold WF; decide) rfl rfl rfl).1⟩

end NeuroGraph
